import Mathlib

/-!
Verification development for the condukt message broker.

The Go source is embedded shallowly:

* Go maps become association lists (`alookup` / `aset` / `aerase`).
* Each method that mutates its receiver becomes a pure function returning the
  new state paired with `Option String` (`none` = nil error, `some e` = the
  Go error message produced by `errors.New`/`fmt.Errorf`).
* The BadgerDB key/value store behind `BadgerStore` is modelled as an
  association list from string keys to values; Badger's `Set` upserts,
  `Delete` succeeds even when the key is absent, and iteration with a key
  prefix visits exactly the bindings whose key starts with that prefix.
* A store iterator (`UnackedMessageIterator`) is modelled as the list of
  messages it will yield, in order; `Next` yields the head, `Close` is a
  no-op.
* `time.Now()` inside `Conduktor.Send` is nondeterministic, so the fresh
  message id and the timestamp are passed to the embedded `Send` as explicit
  oracle arguments.
* A Go channel of capacity 100000 (`GoChanWire`) becomes a bounded FIFO
  list; receiving from an empty open channel blocks, which the embedding
  reports as `Except.ok none` with the state unchanged.
* Logging and Prometheus metrics are fire-and-forget side effects with no
  influence on control flow; they are omitted.
-/

/-- Modelled from the spec: the message envelope record (`Msg`).  Its
declaring file is not under `src/`; the field set is fixed by §3 of the spec
and by the construction in `Conduktor.Send` (id, strand, payload, acked,
timestamp). -/
structure Msg where
  id : String
  strand : String
  payload : String
  acked : Bool
  timestamp : Int
deriving DecidableEq, Repr

/-- Modelled from the spec: the per-strand configuration (`StrandConf`) with
`durable` and `ordered` flags (spec §3); its declaring file is not under
`src/`.  Field usage matches `config.Durable` in `Conduktor.StrandAdd`. -/
structure StrandConf where
  durable : Bool
  ordered : Bool
deriving DecidableEq, Repr

/-- Go map lookup (`v, ok := m[k]` with `ok` folded into `Option`). -/
def alookup {α : Type} : List (String × α) → String → Option α
  | [], _ => none
  | (k, v) :: rest, key => if k = key then some v else alookup rest key

/-- Go map update `m[k] = v` (upsert; also Badger `txn.Set`). -/
def aset {α : Type} : List (String × α) → String → α → List (String × α)
  | [], key, v => [(key, v)]
  | (k, w) :: rest, key, v =>
    if k = key then (key, v) :: rest else (k, w) :: aset rest key v

/-- Go map `delete(m, k)` (also Badger `txn.Delete`, which succeeds even when
the key is absent). -/
def aerase {α : Type} : List (String × α) → String → List (String × α)
  | [], _ => []
  | (k, w) :: rest, key =>
    if k = key then aerase rest key else (k, w) :: aerase rest key

/-- `RamStore` (store_ram.go): in-memory map-backed store, message slices
keyed by strand id plus a strand-id-to-configuration map. -/
structure RamStore where
  store : List (String × List Msg)
  configs : List (String × StrandConf)
deriving DecidableEq, Repr

/-- `RamStoreMake` (store_ram.go): empty maps. -/
def RamStoreMake : RamStore := { store := [], configs := [] }

/-- `RamStore.CreateStrand` (store_ram.go): errors when the strand is already
configured, otherwise records the configuration and an empty message slice. -/
def RamStore.CreateStrand (s : RamStore) (strandID : String)
    (config : StrandConf) : RamStore × Option String :=
  match alookup s.configs strandID with
  | some _ => (s, some "strand already exists")
  | none =>
    ({ configs := aset s.configs strandID config,
       store := aset s.store strandID [] }, none)

/-- `RamStore.DeleteStrand` (store_ram.go): errors when the strand is not
configured, otherwise removes both the message slice and the configuration. -/
def RamStore.DeleteStrand (s : RamStore) (strandID : String) :
    RamStore × Option String :=
  match alookup s.configs strandID with
  | none => (s, some "strand does not exist")
  | some _ =>
    ({ store := aerase s.store strandID,
       configs := aerase s.configs strandID }, none)

/-- `RamStore.HasStrand` (store_ram.go). -/
def RamStore.HasStrand (s : RamStore) (strandID : String) : Bool :=
  (alookup s.configs strandID).isSome

/-- `RamStore.Save` (store_ram.go): errors when the strand is not configured,
otherwise appends the message to the strand's slice (a missing slice reads as
nil, i.e. `[]`). -/
def RamStore.Save (s : RamStore) (msg : Msg) : RamStore × Option String :=
  match alookup s.configs msg.strand with
  | none => (s, some "strand not configured")
  | some _ =>
    let old := (alookup s.store msg.strand).getD []
    ({ s with store := aset s.store msg.strand (old ++ [msg]) }, none)

/-- The removal performed by `RamStore.Acknowledge`'s loop: delete the first
message whose id matches, or report `none` when no message matches. -/
def removeFirstById : List Msg → String → Option (List Msg)
  | [], _ => none
  | m :: rest, msgID =>
    if m.id = msgID then some rest
    else
      match removeFirstById rest msgID with
      | some rest2 => some (m :: rest2)
      | none => none

/-- `RamStore.Acknowledge` (store_ram.go): errors when the strand is not
configured; otherwise removes the first message with the given id from the
strand's slice, or errors with "message not found". -/
def RamStore.Acknowledge (s : RamStore) (strandID msgID : String) :
    RamStore × Option String :=
  match alookup s.configs strandID with
  | none => (s, some "strand does not exist")
  | some _ =>
    let messages := (alookup s.store strandID).getD []
    match removeFirstById messages msgID with
    | some rest => ({ s with store := aset s.store strandID rest }, none)
    | none => (s, some "message not found")

/-- `RamStore.UnackedIterator` (store_ram.go): builds a `RamUnackedIterator`
whose `messages` field is the literal empty slice `[]Msg{}`, so the iterator
yields nothing regardless of the store's contents.  The iterator is modelled
as the list of messages it will yield. -/
def RamStore.UnackedIterator (_ : RamStore) : Except String (List Msg) :=
  Except.ok []

/-- A value stored in the BadgerDB key/value store: either a JSON-encoded
strand configuration (under a `strand-config:` key) or a JSON-encoded message
(under a `msg:` key).  JSON round-tripping of these records is lossless, so
the model stores the decoded record directly. -/
inductive BVal where
  | conf (c : StrandConf)
  | msg (m : Msg)
deriving DecidableEq, Repr

/-- `BadgerStore` (wire_udp.go): adapter over the BadgerDB key/value store,
modelled as an association list of key/value bindings. -/
structure BadgerStore where
  db : List (String × BVal)
deriving DecidableEq, Repr

/-- Key layout for strand configurations: `strand-config:<strandID>`. -/
def strandConfigKey (strandID : String) : String :=
  "strand-config:" ++ strandID

/-- Key layout for messages: `msg:<strand>:<id>`. -/
def msgKey (strand id : String) : String :=
  "msg:" ++ strand ++ ":" ++ id

/-- Badger's `ValidForPrefix` key test (`bytes.HasPrefix` on the key's
bytes), modelled as a character-list first-segment check. -/
def strHasPfx (pfx s : String) : Bool :=
  pfx.data.isPrefixOf s.data

/-- Badger iteration restricted to keys starting with `pfx`, returning the
stored values in iteration order. -/
def kvScanVals (db : List (String × BVal)) (pfx : String) : List BVal :=
  (db.filter (fun kv => strHasPfx pfx kv.1)).map Prod.snd

/-- Deleting every binding whose key starts with `pfx` (the loop inside
`BadgerStore.DeleteStrand`). -/
def kvDeleteByPfx (db : List (String × BVal)) (pfx : String) :
    List (String × BVal) :=
  db.filter (fun kv => !(strHasPfx pfx kv.1))

/-- `BadgerStore.CreateStrand` (wire_udp.go): marshals the configuration and
sets `strand-config:<id>`; there is no existence check, so an existing
registration is silently overwritten and the call succeeds. -/
def BadgerStore.CreateStrand (s : BadgerStore) (strandID : String)
    (config : StrandConf) : BadgerStore × Option String :=
  ({ db := aset s.db (strandConfigKey strandID) (BVal.conf config) }, none)

/-- `BadgerStore.DeleteStrand` (wire_udp.go): deletes every binding whose key
starts with `<strandID>:` (note: saved messages live under
`msg:<strandID>:<msgID>`, which does not start with `<strandID>:`), then
deletes the `strand-config:<strandID>` binding. -/
def BadgerStore.DeleteStrand (s : BadgerStore) (strandID : String) :
    BadgerStore × Option String :=
  let db1 := kvDeleteByPfx s.db (strandID ++ ":")
  ({ db := aerase db1 (strandConfigKey strandID) }, none)

/-- `BadgerStore.HasStrand` (wire_udp.go): a `Get` on the configuration key
succeeds exactly when the binding is present. -/
def BadgerStore.HasStrand (s : BadgerStore) (strandID : String) : Bool :=
  (alookup s.db (strandConfigKey strandID)).isSome

/-- `BadgerStore.Save` (wire_udp.go): marshals the message and sets
`msg:<strand>:<id>`. -/
def BadgerStore.Save (s : BadgerStore) (msg : Msg) : BadgerStore × Option String :=
  ({ db := aset s.db (msgKey msg.strand msg.id) (BVal.msg msg) }, none)

/-- `BadgerStore.Acknowledge` (wire_udp.go): deletes `msg:<strand>:<id>`.
Badger's `Delete` succeeds even when the key is absent, so the call never
reports a missing message. -/
def BadgerStore.Acknowledge (s : BadgerStore) (strandID msgID : String) :
    BadgerStore × Option String :=
  ({ db := aerase s.db (msgKey strandID msgID) }, none)

/-- `BadgerUnackedIterator.Next` drained to a list: yields decoded messages
until the scan is exhausted; a value that fails to unmarshal as a message
stops the iteration. -/
def drainBVals : List BVal → List Msg
  | [] => []
  | BVal.msg m :: rest => m :: drainBVals rest
  | BVal.conf _ :: _ => []

/-- `BadgerStore.UnackedIterator` (wire_udp.go): scans keys starting with
`msg:`; when no such key exists it fails with
"no unacknowledged messages found", otherwise the iterator yields the scanned
values decoded as messages. -/
def BadgerStore.UnackedIterator (s : BadgerStore) : Except String (List Msg) :=
  let scan := kvScanVals s.db "msg:"
  if scan.isEmpty then Except.error "no unacknowledged messages found"
  else Except.ok (drainBVals scan)

/-- `GoChanWire` (wire_gochan.go): one buffered Go channel (capacity 100000)
per strand, modelled as a FIFO list per strand name. -/
structure GoChanWire where
  channels : List (String × List Msg)
deriving DecidableEq, Repr

/-- `GoChanWireMake` (wire_gochan.go). -/
def GoChanWireMake : GoChanWire := { channels := [] }

/-- `GoChanWire.SendMessage` (wire_gochan.go): creates the strand's channel on
demand, then a non-blocking send — enqueue when the buffer holds fewer than
100000 messages, otherwise fail with "channel buffer full". -/
def GoChanWire.SendMessage (w : GoChanWire) (msg : Msg) :
    GoChanWire × Option String :=
  let buf := (alookup w.channels msg.strand).getD []
  if buf.length < 100000 then
    ({ channels := aset w.channels msg.strand (buf ++ [msg]) }, none)
  else (w, some "channel buffer full")

/-- `GoChanWire.ReceiveMessage` (wire_gochan.go): errors when the strand has
no channel; otherwise receives from the channel — the head of a non-empty
buffer, while an empty open channel blocks (modelled as `Except.ok none` with
the state unchanged). -/
def GoChanWire.ReceiveMessage (w : GoChanWire) (channel : String) :
    GoChanWire × Except String (Option Msg) :=
  match alookup w.channels channel with
  | none => (w, Except.error "channel does not exist")
  | some [] => (w, Except.ok none)
  | some (m :: rest) =>
    ({ channels := aset w.channels channel rest }, Except.ok (some m))

/-- The `Store` interface (store.go), as a record of the operations the
engine dispatches through, over an implementation state type `σ`. -/
structure StoreOps (σ : Type) where
  HasStrand : σ → String → Bool
  CreateStrand : σ → String → StrandConf → σ × Option String
  DeleteStrand : σ → String → σ × Option String
  Save : σ → Msg → σ × Option String
  Acknowledge : σ → String → String → σ × Option String
  UnackedIterator : σ → Except String (List Msg)

/-- The `Wire` interface (wire.go). -/
structure WireOps (τ : Type) where
  SendMessage : τ → Msg → τ × Option String
  ReceiveMessage : τ → String → τ × Except String (Option Msg)

/-- The `Store` implementation provided by `RamStore`. -/
def ramOps : StoreOps RamStore where
  HasStrand := RamStore.HasStrand
  CreateStrand := RamStore.CreateStrand
  DeleteStrand := RamStore.DeleteStrand
  Save := RamStore.Save
  Acknowledge := RamStore.Acknowledge
  UnackedIterator := RamStore.UnackedIterator

/-- The `Store` implementation provided by `BadgerStore`. -/
def badgerOps : StoreOps BadgerStore where
  HasStrand := BadgerStore.HasStrand
  CreateStrand := BadgerStore.CreateStrand
  DeleteStrand := BadgerStore.DeleteStrand
  Save := BadgerStore.Save
  Acknowledge := BadgerStore.Acknowledge
  UnackedIterator := BadgerStore.UnackedIterator

/-- The `Wire` implementation provided by `GoChanWire`. -/
def goChanOps : WireOps GoChanWire where
  SendMessage := GoChanWire.SendMessage
  ReceiveMessage := GoChanWire.ReceiveMessage

/-- `Conduktor` (conduktor.go): one volatile store, one durable store, one
wire.  The store and wire implementations are interface-typed in Go, so the
state is parameterised by their state types and the operations take the
corresponding `StoreOps`/`WireOps` records. -/
structure Conduktor (σv σd τ : Type) where
  volatile : σv
  durable : σd
  wire : τ
deriving DecidableEq, Repr

/-- Which of the two stores `Conduktor.getStore` selected. -/
inductive StoreSel where
  | durable
  | volatile
deriving DecidableEq, Repr

/-- `Conduktor.getStore` (conduktor.go): checks the durable store first, then
the volatile store; errors ("strand not found", reported by the callers) when
neither has the strand. -/
def Conduktor.getStore {σv σd τ : Type} (V : StoreOps σv) (D : StoreOps σd)
    (c : Conduktor σv σd τ) (strandID : String) : Option StoreSel :=
  if D.HasStrand c.durable strandID then some StoreSel.durable
  else if V.HasStrand c.volatile strandID then some StoreSel.volatile
  else none

/-- `Conduktor.StrandAdd` (conduktor.go): `selectStore(config.Durable)` then
`CreateStrand` on the selected store. -/
def Conduktor.StrandAdd {σv σd τ : Type} (V : StoreOps σv) (D : StoreOps σd)
    (c : Conduktor σv σd τ) (strandID : String) (config : StrandConf) :
    Conduktor σv σd τ × Option String :=
  if config.durable then
    let r := D.CreateStrand c.durable strandID config
    ({ c with durable := r.1 }, r.2)
  else
    let r := V.CreateStrand c.volatile strandID config
    ({ c with volatile := r.1 }, r.2)

/-- The envelope constructed inside `Conduktor.Send`: fresh id (from
`time.Now().UnixNano()`) and current timestamp are oracle arguments. -/
def sendEnvelope (strandID payload freshID : String) (now : Int) : Msg :=
  { id := freshID, strand := strandID, payload := payload, acked := false,
    timestamp := now }

/-- `store.Save(msg)` dispatched through the store selected by
`Conduktor.getStore`. -/
def saveSel {σv σd τ : Type} (V : StoreOps σv) (D : StoreOps σd)
    (c : Conduktor σv σd τ) : StoreSel → Msg → Conduktor σv σd τ × Option String
  | StoreSel.durable, msg =>
    let r := D.Save c.durable msg
    ({ c with durable := r.1 }, r.2)
  | StoreSel.volatile, msg =>
    let r := V.Save c.volatile msg
    ({ c with volatile := r.1 }, r.2)

/-- `Conduktor.Send` (conduktor.go): look up the owning store, build the
envelope, `Save` it, and only if the save succeeded forward the envelope
through the wire, returning the wire's error if any. -/
def Conduktor.Send {σv σd τ : Type} (V : StoreOps σv) (D : StoreOps σd)
    (W : WireOps τ) (c : Conduktor σv σd τ)
    (strandID payload freshID : String) (now : Int) :
    Conduktor σv σd τ × Option String :=
  match Conduktor.getStore V D c strandID with
  | none => (c, some "strand not found")
  | some sel =>
    let msg := sendEnvelope strandID payload freshID now
    match saveSel V D c sel msg with
    | (c1, some e) => (c1, some e)
    | (c1, none) =>
      let r := W.SendMessage c1.wire msg
      ({ c1 with wire := r.1 }, r.2)

/-- `Conduktor.Receive` (conduktor.go): pulls from the wire; the stores are
not consulted. -/
def Conduktor.Receive {σv σd τ : Type} (W : WireOps τ)
    (c : Conduktor σv σd τ) (strandID : String) :
    Conduktor σv σd τ × Except String (Option Msg) :=
  let r := W.ReceiveMessage c.wire strandID
  ({ c with wire := r.1 }, r.2)

/-- `Conduktor.Acknowledge` (conduktor.go): look up the owning store and
delegate to its `Acknowledge`. -/
def Conduktor.Acknowledge {σv σd τ : Type} (V : StoreOps σv) (D : StoreOps σd)
    (c : Conduktor σv σd τ) (strandID msgID : String) :
    Conduktor σv σd τ × Option String :=
  match Conduktor.getStore V D c strandID with
  | none => (c, some "strand not found")
  | some StoreSel.durable =>
    let r := D.Acknowledge c.durable strandID msgID
    ({ c with durable := r.1 }, r.2)
  | some StoreSel.volatile =>
    let r := V.Acknowledge c.volatile strandID msgID
    ({ c with volatile := r.1 }, r.2)

/-- `Conduktor.StrandRemove` (conduktor.go): look up the owning store and
delegate to its `DeleteStrand`. -/
def Conduktor.StrandRemove {σv σd τ : Type} (V : StoreOps σv) (D : StoreOps σd)
    (c : Conduktor σv σd τ) (strandID : String) :
    Conduktor σv σd τ × Option String :=
  match Conduktor.getStore V D c strandID with
  | none => (c, some "strand not found")
  | some StoreSel.durable =>
    let r := D.DeleteStrand c.durable strandID
    ({ c with durable := r.1 }, r.2)
  | some StoreSel.volatile =>
    let r := V.DeleteStrand c.volatile strandID
    ({ c with volatile := r.1 }, r.2)

/-- The resend loop of `Conduktor.RecoverUnackedMessages`: walk the iterator
in order, attempt `wire.SendMessage` for each message, and on failure log and
`continue` with the remaining messages. -/
def recoverLoop {τ : Type} (W : WireOps τ) (w : τ) : List Msg → τ
  | [] => w
  | m :: rest => recoverLoop W (W.SendMessage w m).1 rest

/-- `Conduktor.RecoverUnackedMessages` (conduktor.go): obtain the durable
store's unacked iterator (propagating its error), then resend every yielded
message through the wire, skipping individual failures; always returns nil
after the walk.  No store operation is invoked. -/
def Conduktor.RecoverUnackedMessages {σv σd τ : Type} (D : StoreOps σd)
    (W : WireOps τ) (c : Conduktor σv σd τ) :
    Conduktor σv σd τ × Option String :=
  match D.UnackedIterator c.durable with
  | Except.error e => (c, some e)
  | Except.ok msgs => ({ c with wire := recoverLoop W c.wire msgs }, none)

/-- The broker state as wired in `main.go` and the tests: `RamStore`
volatile, `BadgerStore` durable, `GoChanWire` transport. -/
def CState : Type := Conduktor RamStore BadgerStore GoChanWire

instance : DecidableEq CState := by
  unfold CState
  infer_instance

/-- `ConduktorMake` applied to fresh `RamStoreMake`, an empty `BadgerStore`
and `GoChanWireMake`. -/
def cFresh : CState :=
  { volatile := RamStoreMake, durable := { db := [] }, wire := GoChanWireMake }

/-- `Conduktor.StrandAdd` at the concrete wiring. -/
def cStrandAdd (c : CState) (strandID : String) (config : StrandConf) :
    CState × Option String :=
  Conduktor.StrandAdd ramOps badgerOps c strandID config

/-- `Conduktor.getStore` at the concrete wiring. -/
def cGetStore (c : CState) (strandID : String) : Option StoreSel :=
  Conduktor.getStore ramOps badgerOps c strandID

/-- `Conduktor.Send` at the concrete wiring. -/
def cSend (c : CState) (strandID payload freshID : String) (now : Int) :
    CState × Option String :=
  Conduktor.Send ramOps badgerOps goChanOps c strandID payload freshID now

/-- `Conduktor.Receive` at the concrete wiring. -/
def cReceive (c : CState) (strandID : String) :
    CState × Except String (Option Msg) :=
  Conduktor.Receive goChanOps c strandID

/-- `Conduktor.Acknowledge` at the concrete wiring. -/
def cAcknowledge (c : CState) (strandID msgID : String) :
    CState × Option String :=
  Conduktor.Acknowledge ramOps badgerOps c strandID msgID

/-- `Conduktor.StrandRemove` at the concrete wiring. -/
def cStrandRemove (c : CState) (strandID : String) : CState × Option String :=
  Conduktor.StrandRemove ramOps badgerOps c strandID

/-- `Conduktor.RecoverUnackedMessages` at the concrete wiring. -/
def cRecoverUnackedMessages (c : CState) : CState × Option String :=
  Conduktor.RecoverUnackedMessages badgerOps goChanOps c

instance {ε α : Type} [DecidableEq ε] [DecidableEq α] :
    DecidableEq (Except ε α) := fun a b =>
  match a, b with
  | Except.error e1, Except.error e2 =>
    if h : e1 = e2 then isTrue (by rw [h])
    else isFalse (by intro he; cases he; exact h rfl)
  | Except.error _, Except.ok _ => isFalse (by intro he; cases he)
  | Except.ok _, Except.error _ => isFalse (by intro he; cases he)
  | Except.ok a1, Except.ok a2 =>
    if h : a1 = a2 then isTrue (by rw [h])
    else isFalse (by intro he; cases he; exact h rfl)

/-- A durable+ordered configuration, as in the `"orders"` scenario of the
spec (§8). -/
def confDurable : StrandConf := { durable := true, ordered := true }

/-- A volatile (non-durable) ordered configuration. -/
def confVolatile : StrandConf := { durable := false, ordered := true }

/-- Whether a stored Badger value is a message addressed to the given
strand. -/
def bvalIsMsgFor (v : BVal) (s : String) : Bool :=
  match v with
  | BVal.msg m => m.strand == s
  | BVal.conf _ => false

/-- The volatile store holds at least one message addressed to strand `s`. -/
def ramHasMsgFor (r : RamStore) (s : String) : Bool :=
  r.store.any (fun kv => kv.2.any (fun m => m.strand == s))

/-- The durable store holds at least one message addressed to strand `s`. -/
def badgerHasMsgFor (b : BadgerStore) (s : String) : Bool :=
  b.db.any (fun kv => bvalIsMsgFor kv.2 s)

/-- One public broker operation, with the send oracle inputs (fresh id and
timestamp) recorded in the trace. -/
inductive Op where
  | strandAdd (strandID : String) (config : StrandConf)
  | send (strandID payload freshID : String) (now : Int)
  | acknowledge (strandID msgID : String)
  | strandRemove (strandID : String)
deriving DecidableEq, Repr

/-- Run one broker operation, keeping the resulting state (errors are
returned to the caller and do not stop the trace). -/
def cExecOp (c : CState) : Op → CState
  | Op.strandAdd sid conf => (cStrandAdd c sid conf).1
  | Op.send sid payload fid now => (cSend c sid payload fid now).1
  | Op.acknowledge sid mid => (cAcknowledge c sid mid).1
  | Op.strandRemove sid => (cStrandRemove c sid).1

/-- Run a sequence of broker operations from left to right. -/
def cExecOps (c : CState) : List Op → CState
  | [] => c
  | op :: rest => cExecOps (cExecOp c op) rest

/-- The strand ids an operation registers in the volatile store. -/
def opVolAdds : Op → List String
  | Op.strandAdd sid conf => if conf.durable then [] else [sid]
  | _ => []

/-- The strand ids an operation registers in the durable store. -/
def opDurAdds : Op → List String
  | Op.strandAdd sid conf => if conf.durable then [sid] else []
  | _ => []

/-- All strand ids a trace registers in the volatile store. -/
def volAddIds : List Op → List String
  | [] => []
  | op :: rest => opVolAdds op ++ volAddIds rest

/-- All strand ids a trace registers in the durable store. -/
def durAddIds : List Op → List String
  | [] => []
  | op :: rest => opDurAdds op ++ durAddIds rest

/-- Ownership bookkeeping for the single-store invariant: any strand
configured in, or with messages in, the volatile store was registered there
during the trace (`va`), and likewise for the durable store (`da`). -/
def C8Inv (c : CState) (va da : List String) : Prop :=
  ∀ s : String,
    ((alookup c.volatile.configs s).isSome = true → s ∈ va) ∧
    (ramHasMsgFor c.volatile s = true → s ∈ va) ∧
    ((alookup c.durable.db (strandConfigKey s)).isSome = true → s ∈ da) ∧
    (badgerHasMsgFor c.durable s = true → s ∈ da)

/-- The wire buffer currently queued for a strand (a missing channel reads as
an empty buffer). -/
def bufferOf (c : CState) (sid : String) : List Msg :=
  (alookup c.wire.channels sid).getD []

/-- The envelope a `Send` with constant oracle inputs enqueues for a strand:
only the payload varies across a FIFO test sequence. -/
def fifoMsg (sid p : String) : Msg := sendEnvelope sid p "" 0

/-- A sequence of `Send` calls on one strand, one per payload. -/
def sendSeq (c : CState) (sid : String) : List String → CState
  | [] => c
  | p :: ps => sendSeq (cSend c sid p "" 0).1 sid ps

/-- A sequence of `Receive` calls on one strand, collecting the envelopes
received; stops early if a receive errors or would block. -/
def recvSeq (c : CState) (sid : String) : Nat → List Msg
  | 0 => []
  | Nat.succ n =>
    match cReceive c sid with
    | (c2, Except.ok (some m)) => m :: recvSeq c2 sid n
    | _ => []

/-- Durable strand `"orders"` registered on a fresh broker. -/
def c3reg : CState := (cStrandAdd cFresh "orders" confDurable).1

/-- One message sent on the durable strand `"orders"`. -/
def c3sent : CState := (cSend c3reg "orders" "p" "1" 0).1

/-- A durable store with strand `"s"` registered and no messages. -/
def b4reg : BadgerStore :=
  (BadgerStore.CreateStrand { db := [] } "s" confDurable).1

/-- A volatile store with strand `"s"` registered and one saved message. -/
def r4one : RamStore :=
  (RamStore.Save (RamStore.CreateStrand RamStoreMake "s" confVolatile).1
    (sendEnvelope "s" "p" "1" 0)).1

/-- Durable strand `"s"` registered on a fresh broker. -/
def c5reg : CState := (cStrandAdd cFresh "s" confDurable).1

/-- The post-save broker state in the send witness scenario. -/
def c2saved : CState :=
  (saveSel ramOps badgerOps c5reg StoreSel.durable (sendEnvelope "s" "p" "1" 0)).1

/-- A trace that registers strand `"s"` volatile, sends to it, re-registers
`"s"` durable (which the durable store accepts silently), and sends again. -/
def c8split : CState :=
  cExecOps cFresh
    [Op.strandAdd "s" confVolatile, Op.send "s" "p" "1" 0,
     Op.strandAdd "s" confDurable, Op.send "s" "q" "2" 0]

/-- Volatile strand `"s"` registered on a fresh broker. -/
def c9reg : CState := (cStrandAdd cFresh "s" confVolatile).1

theorem alookup_aset {α : Type} (l : List (String × α)) (key q : String)
    (v : α) :
    alookup (aset l key v) q = if q = key then some v else alookup l q := by
  induction l with
  | nil =>
    by_cases hq : q = key
    · subst hq
      simp [aset, alookup]
    · have hkq : ¬key = q := fun h => hq h.symm
      simp [aset, alookup, hq, hkq]
  | cons kv rest ih =>
    obtain ⟨k, w⟩ := kv
    by_cases hk : k = key
    · subst hk
      by_cases hq : q = k
      · subst hq
        simp [aset, alookup]
      · have hkq : ¬k = q := fun h => hq h.symm
        simp [aset, alookup, hq, hkq]
    · by_cases hq : q = k
      · subst hq
        have hqkey : ¬q = key := hk
        simp [aset, alookup, hk, hqkey]
      · have hkq : ¬k = q := fun h => hq h.symm
        simp [aset, alookup, hk, hkq, ih]

theorem mem_aset {α : Type} (l : List (String × α)) (key : String) (v : α)
    (kv : String × α) (h : kv ∈ aset l key v) : kv = (key, v) ∨ kv ∈ l := by
  induction l with
  | nil =>
    simp only [aset, List.mem_singleton] at h
    exact Or.inl h
  | cons hd rest ih =>
    obtain ⟨k, w⟩ := hd
    by_cases hk : k = key
    · subst hk
      simp only [aset, if_true, eq_self_iff_true, List.mem_cons] at h
      rcases h with h | h
      · exact Or.inl h
      · exact Or.inr (List.mem_cons_of_mem _ h)
    · simp only [aset, if_neg hk, List.mem_cons] at h
      rcases h with h | h
      · exact Or.inr (by rw [h]; exact List.mem_cons_self _ _)
      · rcases ih h with h2 | h2
        · exact Or.inl h2
        · exact Or.inr (List.mem_cons_of_mem _ h2)

theorem mem_aerase {α : Type} (l : List (String × α)) (key : String)
    (kv : String × α) (h : kv ∈ aerase l key) : kv ∈ l := by
  induction l with
  | nil =>
    simp [aerase] at h
  | cons hd rest ih =>
    obtain ⟨k, w⟩ := hd
    by_cases hk : k = key
    · simp only [aerase, if_pos hk] at h
      exact List.mem_cons_of_mem _ (ih h)
    · simp only [aerase, if_neg hk, List.mem_cons] at h
      rcases h with h | h
      · rw [h]; exact List.mem_cons_self _ _
      · exact List.mem_cons_of_mem _ (ih h)

theorem alookup_aerase {α : Type} (l : List (String × α)) (key q : String) :
    alookup (aerase l key) q = if q = key then none else alookup l q := by
  induction l with
  | nil =>
    simp [aerase, alookup]
  | cons hd rest ih =>
    obtain ⟨k, w⟩ := hd
    by_cases hk : k = key
    · subst hk
      by_cases hq : q = k
      · subst hq
        simp [aerase, ih]
      · have hkq : ¬k = q := fun h => hq h.symm
        simp [aerase, alookup, hq, hkq, ih]
    · by_cases hq : q = k
      · subst hq
        have hqkey : ¬q = key := hk
        simp [aerase, alookup, hk, hqkey]
      · have hkq : ¬k = q := fun h => hq h.symm
        simp [aerase, alookup, hk, hkq, ih]

theorem alookup_mem {α : Type} (l : List (String × α)) (q : String) (v : α)
    (h : alookup l q = some v) : (q, v) ∈ l := by
  induction l with
  | nil => simp [alookup] at h
  | cons hd rest ih =>
    obtain ⟨k, w⟩ := hd
    by_cases hk : k = q
    · subst hk
      simp only [alookup, if_true, eq_self_iff_true, Option.some.injEq] at h
      rw [← h]
      exact List.mem_cons_self _ _
    · simp only [alookup, if_neg hk] at h
      exact List.mem_cons_of_mem _ (ih h)

theorem alookup_filter_none {α : Type} (l : List (String × α))
    (p : String × α → Bool) (q : String) (h : alookup l q = none) :
    alookup (l.filter p) q = none := by
  induction l with
  | nil => simp [alookup]
  | cons hd rest ih =>
    obtain ⟨k, w⟩ := hd
    by_cases hk : k = q
    · subst hk
      simp [alookup] at h
    · simp only [alookup, if_neg hk] at h
      by_cases hp : p (k, w)
      · simp [List.filter_cons, hp, alookup, hk, ih h]
      · simp [List.filter_cons, hp, ih h]

theorem removeFirstById_eq_none (ms : List Msg) (x : String)
    (h : ∀ m ∈ ms, m.id ≠ x) : removeFirstById ms x = none := by
  induction ms with
  | nil => rfl
  | cons m rest ih =>
    have hm : m.id ≠ x := h m (List.mem_cons_self _ _)
    have hrest : removeFirstById rest x = none :=
      ih (fun m2 hm2 => h m2 (List.mem_cons_of_mem _ hm2))
    simp [removeFirstById, hm, hrest]

theorem removeFirstById_split (pre post : List Msg) (m : Msg) (x : String)
    (hpre : ∀ m2 ∈ pre, m2.id ≠ x) (hm : m.id = x) :
    removeFirstById (pre ++ m :: post) x = some (pre ++ post) := by
  induction pre with
  | nil => simp [removeFirstById, hm]
  | cons p rest ih =>
    have hp : p.id ≠ x := hpre p (List.mem_cons_self _ _)
    have h2 := ih (fun m2 hm2 => hpre m2 (List.mem_cons_of_mem _ hm2))
    simp [removeFirstById, hp, h2]

theorem mem_removeFirstById (ms : List Msg) (x : String) (rest : List Msg)
    (h : removeFirstById ms x = some rest) : ∀ m ∈ rest, m ∈ ms := by
  induction ms generalizing rest with
  | nil => simp [removeFirstById] at h
  | cons hd tl ih =>
    by_cases hid : hd.id = x
    · simp only [removeFirstById, if_pos hid, Option.some.injEq] at h
      rw [← h]
      exact fun m hm => List.mem_cons_of_mem _ hm
    · simp only [removeFirstById, if_neg hid] at h
      cases htl : removeFirstById tl x with
      | none => rw [htl] at h; cases h
      | some rest2 =>
        rw [htl] at h
        simp only [Option.some.injEq] at h
        rw [← h]
        intro m hm
        rcases List.mem_cons.mp hm with h2 | h2
        · rw [h2]; exact List.mem_cons_self _ _
        · exact List.mem_cons_of_mem _ (ih rest2 htl m h2)

theorem strandConfigKey_inj (a b : String)
    (h : strandConfigKey a = strandConfigKey b) : a = b := by
  have h2 : ("strand-config:" ++ a).data = ("strand-config:" ++ b).data :=
    congrArg String.data h
  rw [String.data_append, String.data_append] at h2
  exact String.ext (List.append_cancel_left h2)

theorem strandConfigKey_ne_msgKey (s a b : String) :
    strandConfigKey s ≠ msgKey a b := by
  intro h
  have h2 := congrArg String.data h
  rw [strandConfigKey, msgKey] at h2
  rw [String.data_append, String.data_append, String.data_append,
    String.data_append] at h2
  have hc : "strand-config:".data =
      ['s','t','r','a','n','d','-','c','o','n','f','i','g',':'] := by decide
  have hm : "msg:".data = ['m','s','g',':'] := by decide
  rw [hc, hm] at h2
  simp at h2

theorem strHasPfx_self_append (p t : String) :
    strHasPfx p (p ++ t) = true := by
  rw [strHasPfx, String.data_append, List.isPrefixOf_iff_prefix]
  exact List.prefix_append _ _

theorem strHasPfx_msgKey (s i : String) :
    strHasPfx "msg:" (msgKey s i) = true := by
  have h : msgKey s i = "msg:" ++ (s ++ ":" ++ i) := by
    rw [msgKey, String.ext_iff]
    simp [String.data_append, List.append_assoc]
  rw [h]
  exact strHasPfx_self_append _ _

/-- C1: the volatile store refutes the contract as implemented — after
registering strand "s" and saving one envelope with no acknowledgment,
the save reported success and the envelope is in the store, yet
`RamStore.UnackedIterator` yields the empty iteration instead of the saved
envelope. -/
theorem C1_ramstore_unacked_iterator_yields_nothing :
    (RamStore.Save (RamStore.CreateStrand RamStoreMake "s" confVolatile).1
        (sendEnvelope "s" "p" "1" 0)).2 = none
    ∧ alookup r4one.store "s" = some [sendEnvelope "s" "p" "1" 0]
    ∧ RamStore.UnackedIterator r4one = Except.ok [] := by
  refine ⟨rfl, by decide, rfl⟩

/-- C3: after registering durable strand "orders", sending one envelope and
removing the strand, `StrandRemove` reports success and the registration is
gone, yet the unacked iterator of the durable store still yields the
envelope addressed to "orders" — `BadgerStore.DeleteStrand` scans the key
lead `"orders:"` while messages are stored under `"msg:orders:..."`. -/
theorem C3_strand_remove_orphans_durable_messages :
    (cStrandRemove c3sent "orders").2 = none
    ∧ badgerOps.HasStrand (cStrandRemove c3sent "orders").1.durable "orders"
        = false
    ∧ BadgerStore.UnackedIterator (cStrandRemove c3sent "orders").1.durable
        = Except.ok [sendEnvelope "orders" "p" "1" 0] := by
  refine ⟨by decide, by decide, by decide⟩

/-- C4 counterexample: with strand "s" registered in the durable store and no
message saved, acknowledging the absent id "x" succeeds (no `MessageNotFound`),
because Badger's `Delete` is a no-op on an absent key. -/
theorem C4_badger_acknowledge_absent_id_no_error :
    cGetStore c5reg "s" = some StoreSel.durable
    ∧ (cAcknowledge c5reg "s" "x").2 = none := by
  refine ⟨by decide, by decide⟩

/-- C4 as amended: the volatile store's `Acknowledge` fails with
"message not found" when the id is absent, and after a successful
acknowledgment of the only occurrence of an id the second acknowledgment
fails the same way; the durable store's `Acknowledge`, by contrast,
unconditionally deletes the key and succeeds. -/
theorem C4_acknowledge_absent_volatile_errors_durable_noop
    (r1v : RamStore) (sid1 mid1 : String) (cf1 : StrandConf)
    (r2v : RamStore) (sid2 x2 : String) (cf2 : StrandConf)
    (pre post : List Msg) (m : Msg)
    (b : BadgerStore) (sb xb : String)
    (h1 : alookup r1v.configs sid1 = some cf1)
    (h2 : ∀ mm ∈ (alookup r1v.store sid1).getD [], mm.id ≠ mid1)
    (h3 : alookup r2v.configs sid2 = some cf2)
    (h4 : (alookup r2v.store sid2).getD [] = pre ++ m :: post)
    (h5 : ∀ mm ∈ pre, mm.id ≠ x2)
    (h6 : ∀ mm ∈ post, mm.id ≠ x2)
    (h7 : m.id = x2) :
    RamStore.Acknowledge r1v sid1 mid1 = (r1v, some "message not found")
    ∧ RamStore.Acknowledge r2v sid2 x2 =
        ({ r2v with store := aset r2v.store sid2 (pre ++ post) }, none)
    ∧ RamStore.Acknowledge
        { r2v with store := aset r2v.store sid2 (pre ++ post) } sid2 x2 =
        ({ r2v with store := aset r2v.store sid2 (pre ++ post) },
          some "message not found")
    ∧ BadgerStore.Acknowledge b sb xb =
        ({ db := aerase b.db (msgKey sb xb) }, none) := by
  have hnone2 : removeFirstById (pre ++ post) x2 = none := by
    apply removeFirstById_eq_none
    intro mm hmm
    rcases List.mem_append.mp hmm with hmem | hmem
    · exact h5 mm hmem
    · exact h6 mm hmem
  have hlk : alookup (aset r2v.store sid2 (pre ++ post)) sid2 =
      some (pre ++ post) := by
    rw [alookup_aset]
    simp
  refine ⟨?_, ?_, ?_, rfl⟩
  · have hn := removeFirstById_eq_none _ _ h2
    simp [RamStore.Acknowledge, h1, hn]
  · have hs := removeFirstById_split pre post m x2 h5 h7
    simp [RamStore.Acknowledge, h3, h4, hs]
  · simp [RamStore.Acknowledge, h3, hlk, hnone2]

/-- C5 counterexample: registering durable strand "s" twice — the strand is
already present in the durable store, yet the second `StrandAdd` succeeds
(`BadgerStore.CreateStrand` has no existence check and overwrites). -/
theorem C5_durable_strand_add_twice_succeeds :
    badgerOps.HasStrand c5reg.durable "s" = true
    ∧ (cStrandAdd c5reg "s" confDurable).2 = none := by
  refine ⟨by decide, by decide⟩

/-- C5 as amended: a second `StrandAdd` routed to the volatile store fails
with "strand already exists", while a `StrandAdd` routed to the durable
store always succeeds, silently overwriting any existing registration. -/
theorem C5_strand_add_existing_volatile_errors_durable_overwrites
    (c : CState) (sid : String) (conf : StrandConf)
    (c2 : CState) (sid2 : String) (conf2 : StrandConf)
    (h1 : conf.durable = false)
    (h2 : ramOps.HasStrand c.volatile sid = true)
    (h3 : conf2.durable = true) :
    cStrandAdd c sid conf = (c, some "strand already exists")
    ∧ cStrandAdd c2 sid2 conf2 =
        ({ c2 with durable :=
            { db := aset c2.durable.db (strandConfigKey sid2)
                (BVal.conf conf2) } }, none) := by
  constructor
  · have hl : ∃ cf, alookup c.volatile.configs sid = some cf := by
      simpa [ramOps, RamStore.HasStrand, Option.isSome_iff_exists] using h2
    obtain ⟨cf, hcf⟩ := hl
    simp only [cStrandAdd, Conduktor.StrandAdd, h1, ramOps,
      RamStore.CreateStrand, hcf, Bool.false_eq_true, if_false]
    rfl
  · simp [cStrandAdd, Conduktor.StrandAdd, h3, badgerOps,
      BadgerStore.CreateStrand]

/-- C7 counterexample: on a fresh broker the strand "ghost" is registered in
neither store, yet `Receive` reports the transport's "channel does not
exist", not "strand not found" — `Conduktor.Receive` never consults the
stores. -/
theorem C7_receive_unregistered_not_strand_not_found :
    cGetStore cFresh "ghost" = none
    ∧ (cReceive cFresh "ghost").2 = Except.error "channel does not exist"
    ∧ (cReceive cFresh "ghost").2 ≠ Except.error "strand not found" := by
  refine ⟨by decide, by decide, by decide⟩

/-- C7 as amended: against a strand registered in neither store, `Send` and
`Acknowledge` fail with "strand not found", while `Receive` does not consult
the stores and surfaces the transport's error — for `GoChanWire` with no
channel for the strand, "channel does not exist". -/
theorem C7_unregistered_strand_errors (c : CState)
    (sid payload fid mid : String) (now : Int)
    (h1 : cGetStore c sid = none)
    (h2 : alookup c.wire.channels sid = none) :
    cSend c sid payload fid now = (c, some "strand not found")
    ∧ cAcknowledge c sid mid = (c, some "strand not found")
    ∧ cReceive c sid = (c, Except.error "channel does not exist") := by
  rw [cGetStore] at h1
  refine ⟨?_, ?_, ?_⟩
  · simp [cSend, Conduktor.Send, h1]
  · simp [cAcknowledge, Conduktor.Acknowledge, h1]
  · simp only [cReceive, Conduktor.Receive, goChanOps,
      GoChanWire.ReceiveMessage, h2]
    rfl

/-- C10: when the durable store holds no `msg:`-keyed records,
`RecoverUnackedMessages` propagates the iterator constructor's
"no unacknowledged messages found" error instead of succeeding with an empty
replay. -/
theorem C10_recover_on_empty_durable_errors (c : CState)
    (h : kvScanVals c.durable.db "msg:" = []) :
    cRecoverUnackedMessages c =
      (c, some "no unacknowledged messages found") := by
  have hit : badgerOps.UnackedIterator c.durable =
      Except.error "no unacknowledged messages found" := by
    simp [badgerOps, BadgerStore.UnackedIterator, h]
  simp [cRecoverUnackedMessages, Conduktor.RecoverUnackedMessages, hit]

/-- C2: for any store and wire implementations, a `Send` on a registered
strand persists the envelope via the owning store's `Save` before any
transmission: if the save errors, `Send` returns that error with the wire
untouched (no transmission is attempted — the post-save state's wire is the
original wire); if the save succeeds, the wire send runs on the post-save
state and `Send` returns its error, while the stores keep exactly their
post-save contents (no rollback on transmission failure). -/
theorem C2_send_persists_before_transmission {σv σd τ : Type}
    (V : StoreOps σv) (D : StoreOps σd) (W : WireOps τ)
    (c : Conduktor σv σd τ) (strandID payload freshID : String) (now : Int)
    (sel : StoreSel) (c1 : Conduktor σv σd τ) (se : Option String)
    (hsel : Conduktor.getStore V D c strandID = some sel)
    (hsave : saveSel V D c sel (sendEnvelope strandID payload freshID now)
        = (c1, se)) :
    (se ≠ none →
      Conduktor.Send V D W c strandID payload freshID now = (c1, se)
      ∧ c1.wire = c.wire)
    ∧ (se = none →
      Conduktor.Send V D W c strandID payload freshID now =
        ({ c1 with wire := (W.SendMessage c1.wire
            (sendEnvelope strandID payload freshID now)).1 },
          (W.SendMessage c1.wire
            (sendEnvelope strandID payload freshID now)).2)
      ∧ (Conduktor.Send V D W c strandID payload freshID now).1.volatile
          = c1.volatile
      ∧ (Conduktor.Send V D W c strandID payload freshID now).1.durable
          = c1.durable) := by
  have hmain : Conduktor.Send V D W c strandID payload freshID now =
      (match saveSel V D c sel (sendEnvelope strandID payload freshID now)
        with
       | (c1x, some e) => (c1x, some e)
       | (c1x, none) =>
         ({ c1x with wire := (W.SendMessage c1x.wire
             (sendEnvelope strandID payload freshID now)).1 },
          (W.SendMessage c1x.wire
             (sendEnvelope strandID payload freshID now)).2)) := by
    simp only [Conduktor.Send, hsel]
  rw [hsave] at hmain
  have hwire : c1.wire = c.wire := by
    cases sel with
    | durable =>
      have h1 := congrArg Prod.fst hsave
      simp only [saveSel] at h1
      rw [← h1]
    | volatile =>
      have h1 := congrArg Prod.fst hsave
      simp only [saveSel] at h1
      rw [← h1]
  constructor
  · intro hne
    cases se with
    | none => exact absurd rfl hne
    | some e => exact ⟨by simpa using hmain, hwire⟩
  · intro hz
    subst hz
    refine ⟨by simpa using hmain, ?_, ?_⟩
    · rw [hmain]
    · rw [hmain]

/-- C6: when the durable store's unacked iterator is obtained successfully,
recovery walks the whole iterator in order through the wire, returns nil,
and leaves both stores exactly as they were; the resend loop continues with
the remaining envelopes after each attempt regardless of its outcome, and a
failed `GoChanWire` send leaves the wire unchanged (the envelope is skipped,
not retried and not deleted). -/
theorem C6_recover_walks_all_and_preserves_stores (c : CState)
    (msgs : List Msg) (w : GoChanWire) (m : Msg) (rest : List Msg)
    (h : badgerOps.UnackedIterator c.durable = Except.ok msgs) :
    cRecoverUnackedMessages c =
        ({ c with wire := recoverLoop goChanOps c.wire msgs }, none)
    ∧ (cRecoverUnackedMessages c).1.durable = c.durable
    ∧ (cRecoverUnackedMessages c).1.volatile = c.volatile
    ∧ recoverLoop goChanOps w (m :: rest) =
        recoverLoop goChanOps ((goChanOps.SendMessage w m).1) rest
    ∧ ((goChanOps.SendMessage w m).2 ≠ none →
        (goChanOps.SendMessage w m).1 = w) := by
  have he : cRecoverUnackedMessages c =
      ({ c with wire := recoverLoop goChanOps c.wire msgs }, none) := by
    simp only [cRecoverUnackedMessages, Conduktor.RecoverUnackedMessages, h]
  refine ⟨he, by rw [he], by rw [he], rfl, ?_⟩
  intro hne
  by_cases hb : ((alookup w.channels m.strand).getD []).length < 100000
  · exact absurd (by simp [goChanOps, GoChanWire.SendMessage, hb]) hne
  · simp [goChanOps, GoChanWire.SendMessage, hb]

/-- C2 witness: the send protocol evaluated with durable-registered strand "s" on
the concrete wiring, where the save succeeds. -/
theorem C2_send_persists_before_transmission_witness :
    (((none : Option String) ≠ none →
      Conduktor.Send ramOps badgerOps goChanOps c5reg "s" "p" "1" 0
          = (c2saved, none)
      ∧ c2saved.wire = c5reg.wire)
    ∧ ((none : Option String) = none →
      Conduktor.Send ramOps badgerOps goChanOps c5reg "s" "p" "1" 0 =
        ({ c2saved with wire := (goChanOps.SendMessage c2saved.wire
            (sendEnvelope "s" "p" "1" 0)).1 },
          (goChanOps.SendMessage c2saved.wire
            (sendEnvelope "s" "p" "1" 0)).2)
      ∧ (Conduktor.Send ramOps badgerOps goChanOps c5reg "s" "p" "1"
          0).1.volatile = c2saved.volatile
      ∧ (Conduktor.Send ramOps badgerOps goChanOps c5reg "s" "p" "1"
          0).1.durable = c2saved.durable)) :=
  C2_send_persists_before_transmission ramOps badgerOps goChanOps c5reg
    "s" "p" "1" 0 StoreSel.durable c2saved none (by decide) (by decide)

/-- C4 witness: the amended acknowledge behaviour evaluated on a volatile
store holding one message for strand "s" and on a registered durable
store. -/
theorem C4_acknowledge_witness :
    RamStore.Acknowledge r4one "s" "zzz" = (r4one, some "message not found")
    ∧ RamStore.Acknowledge r4one "s" "1" =
        ({ r4one with store := aset r4one.store "s" ([] ++ []) }, none)
    ∧ RamStore.Acknowledge
        { r4one with store := aset r4one.store "s" ([] ++ []) } "s" "1" =
        ({ r4one with store := aset r4one.store "s" ([] ++ []) },
          some "message not found")
    ∧ BadgerStore.Acknowledge b4reg "s" "x" =
        ({ db := aerase b4reg.db (msgKey "s" "x") }, none) :=
  C4_acknowledge_absent_volatile_errors_durable_noop r4one "s" "zzz"
    confVolatile r4one "s" "1" confVolatile [] []
    (sendEnvelope "s" "p" "1" 0) b4reg "s" "x" (by decide) (by decide)
    (by decide) (by decide) (by decide) (by decide) (by decide)

/-- C5 witness: the amended registration behaviour evaluated with volatile
strand "s" already registered and a fresh durable registration of "d". -/
theorem C5_strand_add_witness :
    cStrandAdd c9reg "s" confVolatile = (c9reg, some "strand already exists")
    ∧ cStrandAdd cFresh "d" confDurable =
        ({ cFresh with durable :=
            { db := aset cFresh.durable.db (strandConfigKey "d")
                (BVal.conf confDurable) } }, none) :=
  C5_strand_add_existing_volatile_errors_durable_overwrites c9reg "s"
    confVolatile cFresh "d" confDurable (by decide) (by decide) (by decide)

/-- C6 witness: recovery evaluated on a broker whose durable store holds one
unacked envelope for strand "orders". -/
theorem C6_recover_witness :
    cRecoverUnackedMessages c3sent =
        ({ c3sent with wire := (recoverLoop goChanOps c3sent.wire
            [sendEnvelope "orders" "p" "1" 0]) }, none)
    ∧ (cRecoverUnackedMessages c3sent).1.durable = c3sent.durable
    ∧ (cRecoverUnackedMessages c3sent).1.volatile = c3sent.volatile
    ∧ recoverLoop goChanOps GoChanWireMake
        (sendEnvelope "orders" "p" "1" 0 :: []) =
        recoverLoop goChanOps ((goChanOps.SendMessage GoChanWireMake
          (sendEnvelope "orders" "p" "1" 0)).1) []
    ∧ ((goChanOps.SendMessage GoChanWireMake
          (sendEnvelope "orders" "p" "1" 0)).2 ≠ none →
        (goChanOps.SendMessage GoChanWireMake
          (sendEnvelope "orders" "p" "1" 0)).1 = GoChanWireMake) :=
  C6_recover_walks_all_and_preserves_stores c3sent
    [sendEnvelope "orders" "p" "1" 0] GoChanWireMake
    (sendEnvelope "orders" "p" "1" 0) [] (by decide)

/-- C7 witness: the amended unregistered-strand behaviour evaluated on a
fresh broker and the strand "ghost". -/
theorem C7_unregistered_strand_errors_witness :
    cSend cFresh "ghost" "p" "f" 0 = (cFresh, some "strand not found")
    ∧ cAcknowledge cFresh "ghost" "m" = (cFresh, some "strand not found")
    ∧ cReceive cFresh "ghost" =
        (cFresh, Except.error "channel does not exist") :=
  C7_unregistered_strand_errors cFresh "ghost" "p" "f" "m" 0 (by decide)
    (by decide)

/-- C10 witness: recovery evaluated on a fresh broker with an empty durable
store. -/
theorem C10_recover_on_empty_durable_errors_witness :
    cRecoverUnackedMessages cFresh =
      (cFresh, some "no unacknowledged messages found") :=
  C10_recover_on_empty_durable_errors cFresh (by decide)

/-- C8 counterexample: register "s" volatile, send "p", register "s" durable
again (accepted silently by the durable store), send "q" — strand "s" now
has persisted messages in both stores at once. -/
theorem C8_messages_split_across_stores :
    ramHasMsgFor c8split.volatile "s" = true
    ∧ badgerHasMsgFor c8split.durable "s" = true := by
  refine ⟨by decide, by decide⟩

theorem getStore_durable_hasStrand (c : CState) (sid : String)
    (h : Conduktor.getStore ramOps badgerOps c sid
        = some StoreSel.durable) :
    badgerOps.HasStrand c.durable sid = true := by
  rw [Conduktor.getStore] at h
  cases hb : badgerOps.HasStrand c.durable sid with
  | true => rfl
  | false =>
    rw [hb] at h
    cases hv : ramOps.HasStrand c.volatile sid <;> rw [hv] at h <;>
      simp at h

theorem getStore_volatile_hasStrand (c : CState) (sid : String)
    (h : Conduktor.getStore ramOps badgerOps c sid
        = some StoreSel.volatile) :
    ramOps.HasStrand c.volatile sid = true := by
  rw [Conduktor.getStore] at h
  cases hb : badgerOps.HasStrand c.durable sid with
  | true => rw [hb] at h; simp at h
  | false =>
    rw [hb] at h
    cases hv : ramOps.HasStrand c.volatile sid with
    | true => rfl
    | false => rw [hv] at h; simp at h

theorem hasStrand_ram_lookup (r : RamStore) (sid : String)
    (h : ramOps.HasStrand r sid = true) :
    ∃ cf, alookup r.configs sid = some cf := by
  simpa [ramOps, RamStore.HasStrand, Option.isSome_iff_exists] using h

theorem hasStrand_badger_lookup (b : BadgerStore) (sid : String)
    (h : badgerOps.HasStrand b sid = true) :
    (alookup b.db (strandConfigKey sid)).isSome = true := by
  simpa [badgerOps, BadgerStore.HasStrand] using h

theorem badgerHasMsgFor_aset_conf (db : List (String × BVal)) (k : String)
    (cf : StrandConf) (s : String)
    (h : badgerHasMsgFor { db := aset db k (BVal.conf cf) } s = true) :
    badgerHasMsgFor { db := db } s = true := by
  rw [badgerHasMsgFor, List.any_eq_true] at h ⊢
  obtain ⟨kv, hkv, hp⟩ := h
  rcases mem_aset db k _ kv hkv with he | he
  · rw [he] at hp
    simp [bvalIsMsgFor] at hp
  · exact ⟨kv, he, hp⟩

theorem badgerHasMsgFor_aset_msg (db : List (String × BVal)) (k : String)
    (m : Msg) (s : String)
    (h : badgerHasMsgFor { db := aset db k (BVal.msg m) } s = true) :
    m.strand = s ∨ badgerHasMsgFor { db := db } s = true := by
  rw [badgerHasMsgFor, List.any_eq_true] at h
  obtain ⟨kv, hkv, hp⟩ := h
  rcases mem_aset db k _ kv hkv with he | he
  · rw [he] at hp
    simp only [bvalIsMsgFor] at hp
    exact Or.inl (beq_iff_eq.mp hp)
  · exact Or.inr (by rw [badgerHasMsgFor, List.any_eq_true]; exact ⟨kv, he, hp⟩)

theorem badgerHasMsgFor_subset (db db2 : List (String × BVal)) (s : String)
    (hsub : ∀ kv ∈ db2, kv ∈ db)
    (h : badgerHasMsgFor { db := db2 } s = true) :
    badgerHasMsgFor { db := db } s = true := by
  rw [badgerHasMsgFor, List.any_eq_true] at h ⊢
  obtain ⟨kv, hkv, hp⟩ := h
  exact ⟨kv, hsub kv hkv, hp⟩

theorem ramHasMsgFor_aset (st : List (String × List Msg))
    (cf cf2 : List (String × StrandConf)) (k : String) (ms : List Msg)
    (s : String)
    (h : ramHasMsgFor { store := aset st k ms, configs := cf } s = true) :
    (∃ m ∈ ms, m.strand = s)
    ∨ ramHasMsgFor { store := st, configs := cf2 } s = true := by
  rw [ramHasMsgFor, List.any_eq_true] at h
  obtain ⟨kv, hkv, hp⟩ := h
  rcases mem_aset st k ms kv hkv with he | he
  · rw [he] at hp
    rw [List.any_eq_true] at hp
    obtain ⟨m, hm, hms⟩ := hp
    exact Or.inl ⟨m, hm, beq_iff_eq.mp hms⟩
  · exact Or.inr (by rw [ramHasMsgFor, List.any_eq_true]; exact ⟨kv, he, hp⟩)

theorem ramHasMsgFor_subset (st st2 : List (String × List Msg))
    (cf cf2 : List (String × StrandConf)) (s : String)
    (hsub : ∀ kv ∈ st2, kv ∈ st)
    (h : ramHasMsgFor { store := st2, configs := cf2 } s = true) :
    ramHasMsgFor { store := st, configs := cf } s = true := by
  rw [ramHasMsgFor, List.any_eq_true] at h ⊢
  obtain ⟨kv, hkv, hp⟩ := h
  exact ⟨kv, hsub kv hkv, hp⟩

theorem ramHasMsgFor_of_lookup (st : List (String × List Msg))
    (cf : List (String × StrandConf)) (k : String) (ms : List Msg) (m : Msg)
    (s : String) (hl : alookup st k = some ms) (hm : m ∈ ms)
    (hs : m.strand = s) :
    ramHasMsgFor { store := st, configs := cf } s = true := by
  rw [ramHasMsgFor, List.any_eq_true]
  refine ⟨(k, ms), alookup_mem st k ms hl, ?_⟩
  rw [List.any_eq_true]
  exact ⟨m, hm, beq_iff_eq.mpr hs⟩

theorem C8Inv_mono (c : CState) (va da va2 da2 : List String)
    (h : C8Inv c va da) (hva : ∀ s, s ∈ va → s ∈ va2)
    (hda : ∀ s, s ∈ da → s ∈ da2) : C8Inv c va2 da2 := by
  intro s
  obtain ⟨h1, h2, h3, h4⟩ := h s
  exact ⟨fun hx => hva s (h1 hx), fun hx => hva s (h2 hx),
    fun hx => hda s (h3 hx), fun hx => hda s (h4 hx)⟩

theorem C8Inv_step_add (c : CState) (va da : List String) (sid : String)
    (conf : StrandConf) (h : C8Inv c va da) :
    C8Inv (cExecOp c (Op.strandAdd sid conf))
      (va ++ opVolAdds (Op.strandAdd sid conf))
      (da ++ opDurAdds (Op.strandAdd sid conf)) := by
  cases hcd : conf.durable with
  | true =>
    have hexec : cExecOp c (Op.strandAdd sid conf) =
        { c with durable :=
          { db := aset c.durable.db (strandConfigKey sid)
              (BVal.conf conf) } } := by
      simp [cExecOp, cStrandAdd, Conduktor.StrandAdd, hcd, badgerOps,
        BadgerStore.CreateStrand]
    rw [hexec]
    simp only [opVolAdds, opDurAdds, hcd, if_true, List.append_nil]
    intro s
    obtain ⟨h1, h2, h3, h4⟩ := h s
    refine ⟨fun hx => h1 hx, fun hx => h2 hx, ?_, ?_⟩
    · intro hx
      rw [alookup_aset] at hx
      by_cases hk : strandConfigKey s = strandConfigKey sid
      · have hss : s = sid := strandConfigKey_inj _ _ hk
        subst hss
        exact List.mem_append_right _ (List.mem_singleton.mpr rfl)
      · rw [if_neg hk] at hx
        exact List.mem_append_left _ (h3 hx)
    · intro hx
      have hold := badgerHasMsgFor_aset_conf c.durable.db
        (strandConfigKey sid) conf s hx
      exact List.mem_append_left _ (h4 hold)
  | false =>
    cases hal : alookup c.volatile.configs sid with
    | some cf0 =>
      have hexec : cExecOp c (Op.strandAdd sid conf) = c := by
        simp only [cExecOp, cStrandAdd, Conduktor.StrandAdd, hcd,
          Bool.false_eq_true, if_false, ramOps, RamStore.CreateStrand, hal]
        rfl
      rw [hexec]
      exact C8Inv_mono c va da _ _ h
        (fun s hs => List.mem_append_left _ hs)
        (fun s hs => List.mem_append_left _ hs)
    | none =>
      have hexec : cExecOp c (Op.strandAdd sid conf) =
          { c with volatile :=
            { store := aset c.volatile.store sid [],
              configs := aset c.volatile.configs sid conf } } := by
        simp [cExecOp, cStrandAdd, Conduktor.StrandAdd, hcd, ramOps,
          RamStore.CreateStrand, hal]
      rw [hexec]
      simp only [opVolAdds, opDurAdds, hcd, Bool.false_eq_true, if_false,
        List.append_nil]
      intro s
      obtain ⟨h1, h2, h3, h4⟩ := h s
      refine ⟨?_, ?_, fun hx => h3 hx, fun hx => h4 hx⟩
      · intro hx
        rw [alookup_aset] at hx
        by_cases hk : s = sid
        · subst hk
          exact List.mem_append_right _ (List.mem_singleton.mpr rfl)
        · rw [if_neg hk] at hx
          exact List.mem_append_left _ (h1 hx)
      · intro hx
        rcases ramHasMsgFor_aset c.volatile.store _ c.volatile.configs sid
          [] s hx with ⟨m, hm, _⟩ | hold
        · cases hm
        · exact List.mem_append_left _ (h2 hold)

theorem C8Inv_step_send (c : CState) (va da : List String)
    (sid payload fid : String) (now : Int) (h : C8Inv c va da) :
    C8Inv (cExecOp c (Op.send sid payload fid now))
      (va ++ opVolAdds (Op.send sid payload fid now))
      (da ++ opDurAdds (Op.send sid payload fid now)) := by
  simp only [opVolAdds, opDurAdds, List.append_nil]
  cases hgs : Conduktor.getStore ramOps badgerOps c sid with
  | none =>
    have hexec : cExecOp c (Op.send sid payload fid now) = c := by
      simp only [cExecOp, cSend, Conduktor.Send, hgs]
    rw [hexec]
    exact h
  | some sel =>
    cases sel with
    | durable =>
      have hsd := hasStrand_badger_lookup c.durable sid
        (getStore_durable_hasStrand c sid hgs)
      have hvol : (cExecOp c (Op.send sid payload fid now)).volatile
          = c.volatile := by
        simp only [cExecOp, cSend, Conduktor.Send, hgs, saveSel]
        simp [badgerOps, BadgerStore.Save, goChanOps, sendEnvelope]
      have hdur : (cExecOp c (Op.send sid payload fid now)).durable
          = { db := (aset c.durable.db (msgKey sid fid)
              (BVal.msg (sendEnvelope sid payload fid now))) } := by
        simp only [cExecOp, cSend, Conduktor.Send, hgs, saveSel]
        simp [badgerOps, BadgerStore.Save, goChanOps, sendEnvelope, msgKey]
      intro s
      obtain ⟨h1, h2, h3, h4⟩ := h s
      rw [hvol, hdur]
      refine ⟨fun hx => h1 hx, fun hx => h2 hx, ?_, ?_⟩
      · intro hx
        rw [alookup_aset] at hx
        by_cases hk : strandConfigKey s = msgKey sid fid
        · exact absurd hk (strandConfigKey_ne_msgKey s sid fid)
        · rw [if_neg hk] at hx
          exact h3 hx
      · intro hx
        rcases badgerHasMsgFor_aset_msg c.durable.db (msgKey sid fid)
          (sendEnvelope sid payload fid now) s hx with hes | hold
        · have hss : sid = s := hes
          subst hss
          obtain ⟨_, _, h3s, _⟩ := h sid
          exact h3s hsd
        · exact h4 hold
    | volatile =>
      have hhs := getStore_volatile_hasStrand c sid hgs
      obtain ⟨cf0, hcf0⟩ := hasStrand_ram_lookup c.volatile sid hhs
      have hvol : (cExecOp c (Op.send sid payload fid now)).volatile
          = { store := (aset c.volatile.store sid
                ((alookup c.volatile.store sid).getD []
                  ++ [sendEnvelope sid payload fid now])),
              configs := c.volatile.configs } := by
        simp only [cExecOp, cSend, Conduktor.Send, hgs, saveSel]
        simp [ramOps, RamStore.Save, sendEnvelope, hcf0, goChanOps]
      have hdur : (cExecOp c (Op.send sid payload fid now)).durable
          = c.durable := by
        simp only [cExecOp, cSend, Conduktor.Send, hgs, saveSel]
        simp [ramOps, RamStore.Save, sendEnvelope, hcf0, goChanOps]
      intro s
      obtain ⟨h1, h2, h3, h4⟩ := h s
      rw [hvol, hdur]
      refine ⟨fun hx => h1 hx, ?_, fun hx => h3 hx, fun hx => h4 hx⟩
      intro hx
      rcases ramHasMsgFor_aset c.volatile.store _ c.volatile.configs sid
        _ s hx with ⟨m, hm, hms⟩ | hold
      · rcases List.mem_append.mp hm with hmo | hme
        · cases halo : alookup c.volatile.store sid with
          | none => rw [halo] at hmo; cases hmo
          | some l =>
            rw [halo] at hmo
            exact h2 (ramHasMsgFor_of_lookup c.volatile.store
              c.volatile.configs sid l m s halo hmo hms)
        · have hmes : m = sendEnvelope sid payload fid now :=
            List.mem_singleton.mp hme
          rw [hmes] at hms
          have hss : sid = s := hms
          subst hss
          obtain ⟨h1s, _, _, _⟩ := h sid
          exact h1s (by rw [hcf0]; rfl)
      · exact h2 hold

theorem C8Inv_step_ack (c : CState) (va da : List String)
    (sid mid : String) (h : C8Inv c va da) :
    C8Inv (cExecOp c (Op.acknowledge sid mid))
      (va ++ opVolAdds (Op.acknowledge sid mid))
      (da ++ opDurAdds (Op.acknowledge sid mid)) := by
  simp only [opVolAdds, opDurAdds, List.append_nil]
  cases hgs : Conduktor.getStore ramOps badgerOps c sid with
  | none =>
    have hexec : cExecOp c (Op.acknowledge sid mid) = c := by
      simp only [cExecOp, cAcknowledge, Conduktor.Acknowledge, hgs]
    rw [hexec]
    exact h
  | some sel =>
    cases sel with
    | durable =>
      have hvol : (cExecOp c (Op.acknowledge sid mid)).volatile
          = c.volatile := by
        simp only [cExecOp, cAcknowledge, Conduktor.Acknowledge, hgs]
        try simp [badgerOps, BadgerStore.Acknowledge]
      have hdur : (cExecOp c (Op.acknowledge sid mid)).durable
          = { db := aerase c.durable.db (msgKey sid mid) } := by
        simp only [cExecOp, cAcknowledge, Conduktor.Acknowledge, hgs]
        try simp [badgerOps, BadgerStore.Acknowledge]
      intro s
      obtain ⟨h1, h2, h3, h4⟩ := h s
      rw [hvol, hdur]
      refine ⟨fun hx => h1 hx, fun hx => h2 hx, ?_, ?_⟩
      · intro hx
        rw [alookup_aerase] at hx
        by_cases hk : strandConfigKey s = msgKey sid mid
        · rw [if_pos hk] at hx
          simp at hx
        · rw [if_neg hk] at hx
          exact h3 hx
      · intro hx
        exact h4 (badgerHasMsgFor_subset c.durable.db _ s
          (fun kv hkv => mem_aerase _ _ kv hkv) hx)
    | volatile =>
      have hhs := getStore_volatile_hasStrand c sid hgs
      obtain ⟨cf0, hcf0⟩ := hasStrand_ram_lookup c.volatile sid hhs
      cases hrm : removeFirstById ((alookup c.volatile.store sid).getD [])
          mid with
      | none =>
        have hexec : cExecOp c (Op.acknowledge sid mid) = c := by
          simp only [cExecOp, cAcknowledge, Conduktor.Acknowledge, hgs]
          simp only [ramOps, RamStore.Acknowledge, hcf0, hrm]
          rfl
        rw [hexec]
        exact h
      | some rest =>
        have hvol : (cExecOp c (Op.acknowledge sid mid)).volatile
            = { store := aset c.volatile.store sid rest,
                configs := c.volatile.configs } := by
          simp only [cExecOp, cAcknowledge, Conduktor.Acknowledge, hgs]
          try simp [ramOps, RamStore.Acknowledge, hcf0, hrm]
        have hdur : (cExecOp c (Op.acknowledge sid mid)).durable
            = c.durable := by
          simp only [cExecOp, cAcknowledge, Conduktor.Acknowledge, hgs]
          try simp [ramOps, RamStore.Acknowledge, hcf0, hrm]
        intro s
        obtain ⟨h1, h2, h3, h4⟩ := h s
        rw [hvol, hdur]
        refine ⟨fun hx => h1 hx, ?_, fun hx => h3 hx, fun hx => h4 hx⟩
        intro hx
        rcases ramHasMsgFor_aset c.volatile.store _ c.volatile.configs sid
          rest s hx with ⟨m, hm, hms⟩ | hold
        · cases halo : alookup c.volatile.store sid with
          | none =>
            rw [halo] at hrm
            simp [removeFirstById] at hrm
          | some l =>
            rw [halo] at hrm
            have hml : m ∈ l := mem_removeFirstById l mid rest hrm m hm
            exact h2 (ramHasMsgFor_of_lookup c.volatile.store
              c.volatile.configs sid l m s halo hml hms)
        · exact h2 hold

theorem C8Inv_step_remove (c : CState) (va da : List String)
    (sid : String) (h : C8Inv c va da) :
    C8Inv (cExecOp c (Op.strandRemove sid))
      (va ++ opVolAdds (Op.strandRemove sid))
      (da ++ opDurAdds (Op.strandRemove sid)) := by
  simp only [opVolAdds, opDurAdds, List.append_nil]
  cases hgs : Conduktor.getStore ramOps badgerOps c sid with
  | none =>
    have hexec : cExecOp c (Op.strandRemove sid) = c := by
      simp only [cExecOp, cStrandRemove, Conduktor.StrandRemove, hgs]
    rw [hexec]
    exact h
  | some sel =>
    cases sel with
    | durable =>
      have hvol : (cExecOp c (Op.strandRemove sid)).volatile
          = c.volatile := by
        simp only [cExecOp, cStrandRemove, Conduktor.StrandRemove, hgs]
        try simp [badgerOps, BadgerStore.DeleteStrand]
      have hdur : (cExecOp c (Op.strandRemove sid)).durable
          = { db := (aerase (kvDeleteByPfx c.durable.db (sid ++ ":"))
              (strandConfigKey sid)) } := by
        simp only [cExecOp, cStrandRemove, Conduktor.StrandRemove, hgs]
        try simp [badgerOps, BadgerStore.DeleteStrand]
      intro s
      obtain ⟨h1, h2, h3, h4⟩ := h s
      rw [hvol, hdur]
      refine ⟨fun hx => h1 hx, fun hx => h2 hx, ?_, ?_⟩
      · intro hx
        rw [alookup_aerase] at hx
        by_cases hk : strandConfigKey s = strandConfigKey sid
        · rw [if_pos hk] at hx
          simp at hx
        · rw [if_neg hk] at hx
          cases horig : alookup c.durable.db (strandConfigKey s) with
          | none =>
            rw [kvDeleteByPfx] at hx
            rw [alookup_filter_none c.durable.db _ _ horig] at hx
            simp at hx
          | some v =>
            exact h3 (by rw [horig]; rfl)
      · intro hx
        refine h4 (badgerHasMsgFor_subset c.durable.db _ s ?_ hx)
        intro kv hkv
        have h5 := mem_aerase _ _ kv hkv
        rw [kvDeleteByPfx] at h5
        exact (List.mem_filter.mp h5).1
    | volatile =>
      have hhs := getStore_volatile_hasStrand c sid hgs
      obtain ⟨cf0, hcf0⟩ := hasStrand_ram_lookup c.volatile sid hhs
      have hvol : (cExecOp c (Op.strandRemove sid)).volatile
          = { store := aerase c.volatile.store sid,
              configs := aerase c.volatile.configs sid } := by
        simp only [cExecOp, cStrandRemove, Conduktor.StrandRemove, hgs]
        try simp [ramOps, RamStore.DeleteStrand, hcf0]
      have hdur : (cExecOp c (Op.strandRemove sid)).durable
          = c.durable := by
        simp only [cExecOp, cStrandRemove, Conduktor.StrandRemove, hgs]
        try simp [ramOps, RamStore.DeleteStrand, hcf0]
      intro s
      obtain ⟨h1, h2, h3, h4⟩ := h s
      rw [hvol, hdur]
      refine ⟨?_, ?_, fun hx => h3 hx, fun hx => h4 hx⟩
      · intro hx
        rw [alookup_aerase] at hx
        by_cases hk : s = sid
        · rw [if_pos hk] at hx
          simp at hx
        · rw [if_neg hk] at hx
          exact h1 hx
      · intro hx
        exact h2 (ramHasMsgFor_subset c.volatile.store _ c.volatile.configs
          _ s (fun kv hkv => mem_aerase _ _ kv hkv) hx)

theorem C8Inv_step (c : CState) (va da : List String) (op : Op)
    (h : C8Inv c va da) :
    C8Inv (cExecOp c op) (va ++ opVolAdds op) (da ++ opDurAdds op) := by
  cases op with
  | strandAdd sid conf => exact C8Inv_step_add c va da sid conf h
  | send sid payload fid now => exact C8Inv_step_send c va da sid payload fid now h
  | acknowledge sid mid => exact C8Inv_step_ack c va da sid mid h
  | strandRemove sid => exact C8Inv_step_remove c va da sid h

theorem C8Inv_steps (ops : List Op) : ∀ (c : CState) (va da : List String),
    C8Inv c va da →
    C8Inv (cExecOps c ops) (va ++ volAddIds ops) (da ++ durAddIds ops) := by
  induction ops with
  | nil =>
    intro c va da h
    simpa [cExecOps, volAddIds, durAddIds] using h
  | cons op rest ih =>
    intro c va da h
    have h2 := C8Inv_step c va da op h
    have h3 := ih (cExecOp c op) _ _ h2
    simpa [cExecOps, volAddIds, durAddIds, List.append_assoc] using h3

theorem C8Inv_init : C8Inv cFresh [] [] := by
  intro s
  refine ⟨?_, ?_, ?_, ?_⟩ <;> intro hx <;>
    simp [cFresh, RamStoreMake, alookup, ramHasMsgFor, badgerHasMsgFor,
      GoChanWireMake] at hx

/-- C8 as amended: over every trace of `StrandAdd`/`Send`/`Acknowledge`/
`StrandRemove` operations from a fresh broker in which no strand id is
registered in the volatile store and also in the durable store, no strand
ends up with persisted messages in both stores at once. -/
theorem C8_single_store_ownership (ops : List Op) (s : String)
    (hdisj : ∀ t, t ∈ volAddIds ops → t ∉ durAddIds ops) :
    ¬(ramHasMsgFor (cExecOps cFresh ops).volatile s = true
      ∧ badgerHasMsgFor (cExecOps cFresh ops).durable s = true) := by
  rintro ⟨hv, hd⟩
  have hinv := C8Inv_steps ops cFresh [] [] C8Inv_init
  obtain ⟨_, h2, _, h4⟩ := hinv s
  have hsv : s ∈ volAddIds ops := by simpa using h2 hv
  have hsd : s ∈ durAddIds ops := by simpa using h4 hd
  exact hdisj s hsv hsd

/-- C8 witness: the single-store property evaluated on the two-operation
trace that registers "s" volatile and sends one message. -/
theorem C8_single_store_ownership_witness :
    ¬(ramHasMsgFor (cExecOps cFresh
        [Op.strandAdd "s" confVolatile, Op.send "s" "p" "1" 0]).volatile "s"
        = true
      ∧ badgerHasMsgFor (cExecOps cFresh
        [Op.strandAdd "s" confVolatile, Op.send "s" "p" "1" 0]).durable "s"
        = true) :=
  C8_single_store_ownership
    [Op.strandAdd "s" confVolatile, Op.send "s" "p" "1" 0] "s" (by decide)

theorem send_durable_proj (c : CState) (sid p fid : String) (now : Int)
    (hgs : Conduktor.getStore ramOps badgerOps c sid
        = some StoreSel.durable) :
    (cSend c sid p fid now).1.volatile = c.volatile
    ∧ (cSend c sid p fid now).1.durable
        = { db := (aset c.durable.db (msgKey sid fid)
            (BVal.msg (sendEnvelope sid p fid now))) }
    ∧ (cSend c sid p fid now).1.wire
        = (GoChanWire.SendMessage c.wire (sendEnvelope sid p fid now)).1 := by
  refine ⟨?_, ?_, ?_⟩ <;>
    · simp only [cSend, Conduktor.Send, hgs, saveSel]
      try simp [badgerOps, BadgerStore.Save, goChanOps, sendEnvelope, msgKey]

theorem send_volatile_proj (c : CState) (sid p fid : String) (now : Int)
    (hgs : Conduktor.getStore ramOps badgerOps c sid
        = some StoreSel.volatile) :
    (cSend c sid p fid now).1.volatile
        = { store := (aset c.volatile.store sid
              ((alookup c.volatile.store sid).getD []
                ++ [sendEnvelope sid p fid now])),
            configs := c.volatile.configs }
    ∧ (cSend c sid p fid now).1.durable = c.durable
    ∧ (cSend c sid p fid now).1.wire
        = (GoChanWire.SendMessage c.wire (sendEnvelope sid p fid now)).1 := by
  have hhs := getStore_volatile_hasStrand c sid hgs
  obtain ⟨cf0, hcf0⟩ := hasStrand_ram_lookup c.volatile sid hhs
  refine ⟨?_, ?_, ?_⟩ <;>
    · simp only [cSend, Conduktor.Send, hgs, saveSel]
      try simp [ramOps, RamStore.Save, sendEnvelope, hcf0, goChanOps]

theorem getStore_after_send (c : CState) (sid p fid : String) (now : Int) :
    Conduktor.getStore ramOps badgerOps (cSend c sid p fid now).1 sid
      = Conduktor.getStore ramOps badgerOps c sid := by
  cases hgs : Conduktor.getStore ramOps badgerOps c sid with
  | none =>
    have hexec : (cSend c sid p fid now).1 = c := by
      simp only [cSend, Conduktor.Send, hgs]
    rw [hexec, hgs]
  | some sel =>
    cases sel with
    | durable =>
      obtain ⟨hvol, hdur, _⟩ := send_durable_proj c sid p fid now hgs
      have hbs : badgerOps.HasStrand (cSend c sid p fid now).1.durable sid
          = badgerOps.HasStrand c.durable sid := by
        rw [hdur]
        simp [badgerOps, BadgerStore.HasStrand, alookup_aset,
          strandConfigKey_ne_msgKey sid sid fid]
      have hvs : ramOps.HasStrand (cSend c sid p fid now).1.volatile sid
          = ramOps.HasStrand c.volatile sid := by
        rw [hvol]
      simp only [Conduktor.getStore, hbs, hvs]
      simp only [Conduktor.getStore] at hgs
      exact hgs
    | volatile =>
      obtain ⟨hvol, hdur, _⟩ := send_volatile_proj c sid p fid now hgs
      have hbs : badgerOps.HasStrand (cSend c sid p fid now).1.durable sid
          = badgerOps.HasStrand c.durable sid := by
        rw [hdur]
      have hvs : ramOps.HasStrand (cSend c sid p fid now).1.volatile sid
          = ramOps.HasStrand c.volatile sid := by
        rw [hvol]
        simp [ramOps, RamStore.HasStrand]
      simp only [Conduktor.getStore, hbs, hvs]
      simp only [Conduktor.getStore] at hgs
      exact hgs

theorem send_wire_buffer (c : CState) (sid p fid : String) (now : Int)
    (sel : StoreSel)
    (hgs : Conduktor.getStore ramOps badgerOps c sid = some sel)
    (hroom : (bufferOf c sid).length < 100000) :
    alookup (cSend c sid p fid now).1.wire.channels sid
      = some (bufferOf c sid ++ [sendEnvelope sid p fid now]) := by
  rw [bufferOf] at hroom
  have hw : (cSend c sid p fid now).1.wire
      = (GoChanWire.SendMessage c.wire (sendEnvelope sid p fid now)).1 := by
    cases sel with
    | durable => exact (send_durable_proj c sid p fid now hgs).2.2
    | volatile => exact (send_volatile_proj c sid p fid now hgs).2.2
  rw [hw]
  simp [GoChanWire.SendMessage, sendEnvelope, bufferOf, hroom, alookup_aset]

theorem sendSeq_buffer (sid : String) (ps : List String) : ∀ (c : CState),
    Conduktor.getStore ramOps badgerOps c sid ≠ none →
    (bufferOf c sid).length + ps.length ≤ 100000 →
    bufferOf (sendSeq c sid ps) sid
        = bufferOf c sid ++ ps.map (fifoMsg sid)
    ∧ (ps ≠ [] → alookup (sendSeq c sid ps).wire.channels sid
        = some (bufferOf c sid ++ ps.map (fifoMsg sid))) := by
  induction ps with
  | nil =>
    intro c hreg hlen
    exact ⟨by simp [sendSeq], fun hne => absurd rfl hne⟩
  | cons p ps ih =>
    intro c hreg hlen
    obtain ⟨sel, hsel⟩ := Option.ne_none_iff_exists'.mp hreg
    have hroom : (bufferOf c sid).length < 100000 := by
      rw [List.length_cons] at hlen
      omega
    have hbuf2 := send_wire_buffer c sid p "" 0 sel hsel hroom
    have hreg2 : Conduktor.getStore ramOps badgerOps
        (cSend c sid p "" 0).1 sid ≠ none := by
      rw [getStore_after_send]
      exact hreg
    have hbuf2of : bufferOf (cSend c sid p "" 0).1 sid
        = bufferOf c sid ++ [fifoMsg sid p] := by
      rw [bufferOf, hbuf2]
      rfl
    have hlen2 : (bufferOf (cSend c sid p "" 0).1 sid).length + ps.length
        ≤ 100000 := by
      rw [hbuf2of]
      rw [List.length_cons] at hlen
      simp only [List.length_append, List.length_singleton]
      omega
    obtain ⟨ih1, ih2⟩ := ih (cSend c sid p "" 0).1 hreg2 hlen2
    have hstep : sendSeq c sid (p :: ps) = sendSeq (cSend c sid p "" 0).1 sid ps := rfl
    constructor
    · rw [hstep, ih1, hbuf2of]
      simp [List.append_assoc]
    · intro _
      cases ps with
      | nil =>
        rw [hstep]
        show alookup (cSend c sid p "" 0).1.wire.channels sid = _
        rw [hbuf2]
        simp [fifoMsg]
      | cons q qs =>
        have hch := ih2 (List.cons_ne_nil q qs)
        rw [hstep, hch, hbuf2of]
        simp [List.append_assoc]

theorem recvSeq_drains (sid : String) (ms : List Msg) : ∀ (c : CState),
    alookup c.wire.channels sid = some ms →
    recvSeq c sid ms.length = ms := by
  induction ms with
  | nil => intro c _; rfl
  | cons m rest ih =>
    intro c h
    have hrecv : cReceive c sid =
        ({ c with wire := { channels := aset c.wire.channels sid rest } },
          Except.ok (some m)) := by
      simp [cReceive, Conduktor.Receive, goChanOps, GoChanWire.ReceiveMessage,
        h]
    have h2 : alookup (aset c.wire.channels sid rest) sid = some rest := by
      rw [alookup_aset]
      simp
    rw [List.length_cons]
    show (match cReceive c sid with
      | (c2, Except.ok (some mm)) => mm :: recvSeq c2 sid rest.length
      | _ => []) = m :: rest
    rw [hrecv]
    exact congrArg (m :: ·) (ih _ h2)

/-- C9: over the FIFO in-process transport, a sequence of `Send` calls on a
registered strand whose wire buffer starts empty, short enough that no send
overflows the buffer, is received back by successive `Receive` calls in
exactly send order, payload by payload. -/
theorem C9_fifo_send_receive_order (c : CState) (sid : String)
    (ps : List String)
    (hreg : Conduktor.getStore ramOps badgerOps c sid ≠ none)
    (hbuf : alookup c.wire.channels sid = none
      ∨ alookup c.wire.channels sid = some [])
    (hlen : ps.length ≤ 100000) :
    (recvSeq (sendSeq c sid ps) sid ps.length).map Msg.payload = ps := by
  have hbempty : bufferOf c sid = [] := by
    rcases hbuf with h | h <;> simp [bufferOf, h]
  cases ps with
  | nil => rfl
  | cons p qs =>
    have hlen2 : (bufferOf c sid).length + (p :: qs).length ≤ 100000 := by
      rw [hbempty]
      simpa using hlen
    obtain ⟨_, h2⟩ := sendSeq_buffer sid (p :: qs) c hreg hlen2
    have hchan := h2 (List.cons_ne_nil p qs)
    rw [hbempty, List.nil_append] at hchan
    have hlenmap : (p :: qs).length = ((p :: qs).map (fifoMsg sid)).length :=
      (List.length_map _ _).symm
    rw [hlenmap, recvSeq_drains sid ((p :: qs).map (fifoMsg sid)) _ hchan]
    have hcomp : (Msg.payload ∘ fifoMsg sid) = id := funext fun x => rfl
    rw [List.map_map, hcomp, List.map_id]

/-- C9 witness: two payloads sent on the volatile strand "s" of a fresh
broker come back in order. -/
theorem C9_fifo_send_receive_order_witness :
    (recvSeq (sendSeq c9reg "s" ["a", "b"]) "s"
        (["a", "b"] : List String).length).map Msg.payload = ["a", "b"] :=
  C9_fifo_send_receive_order c9reg "s" ["a", "b"] (by decide) (by decide)
    (by decide)
